import Mathlib

/-
  Verification development for the groth16-sol-verifier repository.

  The on-chain program (src/contract) advances a Groth16 pairing check one
  instruction at a time.  Field elements of the pairing target group are kept
  in fixed 384-byte storage accounts; each instruction decodes its indices,
  reads the named accounts, applies one step of the Miller loop or of the
  final exponentiation, and writes the result back.

  The embedding below is shallow.  Target-group arithmetic is supplied by the
  arkworks library, which is outside this repository, so the step functions
  are parameterized by a record of those operations (FieldOps); every step
  function body is a direct translation of the corresponding Rust function.
  Storage slots are modelled at the level of decoded field values.  A Rust
  panic (a failed unwrap, a failed assert, or an out-of-bounds index) is
  modelled as an Except error carrying a constructor that identifies the
  panic site; distinct sites produce distinct panic messages at runtime.
-/

namespace Groth16SolVerifier

/-- Failure outcomes of one instruction.  Each constructor stands for one
panic site in the source: a failed unwrap of the instruction data, a failed
unwrap of a point or field-element decode, a failed unwrap of a field
inverse, an out-of-bounds table index (including the wrap of an unsigned
subtraction), and the failed assert of the final verdict comparison. -/
inductive PanicKind : Type where
  | instr_data : PanicKind
  | decode_fail : PanicKind
  | non_invertible : PanicKind
  | index_oob : PanicKind
  | verdict_assert : PanicKind
deriving DecidableEq, Repr

/-- Affine point of the base curve, as used by the contract: coordinates plus
the point-at-infinity flag that G1Affine of arkworks carries. -/
structure G1Aff (Fq : Type) : Type where
  x : Fq
  y : Fq
  infinity : Bool
deriving DecidableEq, Repr

/-- Modelled from the spec: the interface of the arkworks Fp12 arithmetic and
codec that the contract calls, plus the fixed verifying-key tables of the
missing pvk module (src/contract/src/lib.rs declares mod pvk but the file is
not under src).  F is the pairing target group (degree-12 extension), F2 the
quadratic-extension type of the line coefficients, Fq the base field.  The
step engines never inspect these operations; they only compose them, so all
theorems below hold for every interpretation of this record. -/
structure FieldOps (F F2 Fq : Type) : Type where
  one : F
  mul : F → F → F
  square : F → F
  conjugate : F → F
  inverse : F → Option F
  frobenius_map : F → Nat → F
  cyclotomic_square : F → F
  mul_by_034 : F → F2 → F2 → F2 → F
  mul_assign_by_fp : F2 → Fq → F2
  beq : F → F → Bool
  decode_g1_projective : List Nat → Option (G1Aff Fq)
  decode_g1_affine : List Nat → Option (G1Aff Fq)
  decode_fp12 : List Nat → Option F
  get_gamma_qef : Nat → Nat → F2
  get_delta_qef : Nat → Nat → F2
  get_alpha_g1_beta_g2 : F

/-- Modelled from the spec: the fixed Ate-loop-count digit table of the curve
(the ATE_LOOP_COUNT constant of the ark-bn254 dependency, referenced by
src/contract/src/miller_loop.rs but defined outside this repository).
65 signed digits, least significant first; the digits represent 6x+2 for the
curve parameter x = 4965661367192848881. -/
def ATE_LOOP_COUNT : List Int :=
  [0, 0, 0, 1, 0, 1, 0, -1, 0, 0, 1, -1, 0, 0, 1, 0, 0, 1, 1, 0, -1, 0, 0, 1,
   0, -1, 0, 0, 0, 0, 1, 1, 1, 0, 0, -1, 0, 0, 1, 0, 0, 0, 0, 0, -1, 0, 0, 1,
   1, 0, 0, -1, 0, 0, 0, 1, 1, 0, -1, 0, 0, 1, 0, 1, 1]

/-- The 63-digit signed table of src/contract/src/final_exponentiation.rs,
processed most significant digit first by the shared sub-computation. -/
def NAF : List Int :=
  [1, 0, 0, 0, 1, 0, 1, 0, 0, -1, 0, 1, 0, 1, 0, -1, 0, 0, 1, 0, 1, 0, -1, 0,
   -1, 0, -1, 0, 1, 0, 0, 0, 1, 0, 0, 1, 0, 1, 0, 1, 0, -1, 0, 1, 0, 0, 1, 0,
   0, 0, 0, 1, 0, 1, 0, 0, 0, 0, -1, 0, 0, 0, 1]

/-- Rust usize subtraction: underflow panics in debug builds and wraps to
2^64 - 1 in release builds; either way the subsequent table index with the
wrapped value is out of bounds, so the model returns none on underflow. -/
def usize_sub (a b : Nat) : Option Nat :=
  if b ≤ a then some (a - b) else none

/-- The error value returned by unpack_instruction_data on short input
(the INVALID_INSTRUCTION_DATA constant of solana_program). -/
inductive ProgramError : Type where
  | invalid_instruction_data : ProgramError
deriving DecidableEq, Repr

/-- src/contract/src/utils.rs, unpack_instruction_data: three successive
split_first calls, so fewer than three bytes is an error and otherwise the
first three bytes become (opcode, loop index, coeff index) with the rest of
the bytes passed through untouched. -/
def unpack_instruction_data :
    List Nat → Except ProgramError (Nat × Nat × Nat × List Nat)
  | t :: i :: j :: rest => Except.ok (t, i, j, rest)
  | _ => Except.error ProgramError.invalid_instruction_data

/-- The storage accounts one verification run touches, holding decoded
target-group values.  Slot names follow the seeds the client derives them
with (gamma, delta, final, and the numbered hard-part intermediates). -/
structure Slots (F : Type) : Type where
  gamma : F
  delta : F
  final_slot : F
  y0 : F
  y1 : F
  y3 : F
  y4 : F
  y6 : F
  y8 : F
  y9 : F
  y11 : F
  y13 : F
  y14 : F
  y15 : F
deriving DecidableEq, Repr

variable {F F2 Fq : Type}

/-- src/contract/src/utils.rs, get_account_data: step index 0 yields the
multiplicative identity without touching the account; any other step index
reads the stored element.  Slots are modelled at decoded-value level, so the
read of a canonically stored element is the identity on the value. -/
def get_account_data (ops : FieldOps F F2 Fq) (stored : F) (j : Nat) : F :=
  if j = 0 then ops.one else stored

/-- src/contract/src/miller_loop.rs, gamma_onchain_ell: scale the first two
fixed line coefficients of row j by the point coordinates and fold the
triple into the accumulator with mul_by_034. -/
def gamma_onchain_ell (ops : FieldOps F F2 Fq) (f : F) (j : Nat)
    (p : G1Aff Fq) : F :=
  let c0 := ops.mul_assign_by_fp (ops.get_gamma_qef j 0) p.y
  let c1 := ops.mul_assign_by_fp (ops.get_gamma_qef j 1) p.x
  let c2 := ops.get_gamma_qef j 2
  ops.mul_by_034 f c0 c1 c2

/-- src/contract/src/miller_loop.rs, delta_onchain_ell. -/
def delta_onchain_ell (ops : FieldOps F F2 Fq) (f : F) (j : Nat)
    (p : G1Aff Fq) : F :=
  let c0 := ops.mul_assign_by_fp (ops.get_delta_qef j 0) p.y
  let c1 := ops.mul_assign_by_fp (ops.get_delta_qef j 1) p.x
  let c2 := ops.get_delta_qef j 2
  ops.mul_by_034 f c0 c1 c2

/-- src/contract/src/miller_loop.rs, sub_gamma_miller_loop: on a non-infinity
point, square the accumulator unless i is the last table index, fold in line
row j, then read ATE_LOOP_COUNT[i - 1] and fold in line row j + 1 when that
digit is 1 or -1 (the two source match arms are identical).  The digit read
panics when i is 0 (usize underflow) and the source never reaches it with
i - 1 out of bounds. -/
def sub_gamma_miller_loop (ops : FieldOps F F2 Fq) (p : G1Aff Fq) (f : F)
    (i j : Nat) : Except PanicKind F :=
  if p.infinity then Except.ok f
  else
    let f1 := if i ≠ ATE_LOOP_COUNT.length - 1 then ops.square f else f
    let f2 := gamma_onchain_ell ops f1 j p
    match usize_sub i 1 with
    | none => Except.error PanicKind.index_oob
    | some k =>
      match ATE_LOOP_COUNT.get? k with
      | none => Except.error PanicKind.index_oob
      | some d =>
        Except.ok
          (if d = 1 ∨ d = -1 then gamma_onchain_ell ops f2 (j + 1) p else f2)

/-- src/contract/src/miller_loop.rs, final_gamma_miller_loop: the trailing
step folds in line rows j and j + 1 with no squaring. -/
def final_gamma_miller_loop (ops : FieldOps F F2 Fq) (p : G1Aff Fq) (f : F)
    (j : Nat) : F :=
  if p.infinity then f
  else gamma_onchain_ell ops (gamma_onchain_ell ops f j p) (j + 1) p

/-- src/contract/src/miller_loop.rs, sub_delta_miller_loop. -/
def sub_delta_miller_loop (ops : FieldOps F F2 Fq) (p : G1Aff Fq) (f : F)
    (i j : Nat) : Except PanicKind F :=
  if p.infinity then Except.ok f
  else
    let f1 := if i ≠ ATE_LOOP_COUNT.length - 1 then ops.square f else f
    let f2 := delta_onchain_ell ops f1 j p
    match usize_sub i 1 with
    | none => Except.error PanicKind.index_oob
    | some k =>
      match ATE_LOOP_COUNT.get? k with
      | none => Except.error PanicKind.index_oob
      | some d =>
        Except.ok
          (if d = 1 ∨ d = -1 then delta_onchain_ell ops f2 (j + 1) p else f2)

/-- src/contract/src/miller_loop.rs, final_delta_miller_loop. -/
def final_delta_miller_loop (ops : FieldOps F F2 Fq) (p : G1Aff Fq) (f : F)
    (j : Nat) : F :=
  if p.infinity then f
  else delta_onchain_ell ops (delta_onchain_ell ops f j p) (j + 1) p

/-- src/contract/src/miller_loop.rs, gamma_miller_loop: decode the prepared
public input point from the payload (unwrap panics on failure), read the
gamma accumulator, run the sub step (or the trailing step when j is 89), and
write the result back to the gamma account. -/
def gamma_miller_loop (ops : FieldOps F F2 Fq) (i j : Nat)
    (input : List Nat) (st : Slots F) : Except PanicKind (Slots F) :=
  match ops.decode_g1_projective input with
  | none => Except.error PanicKind.decode_fail
  | some p =>
    let acc := get_account_data ops st.gamma j
    match
      (if j = 89 then Except.ok (final_gamma_miller_loop ops p acc j)
       else sub_gamma_miller_loop ops p acc i j) with
    | Except.error e => Except.error e
    | Except.ok v => Except.ok { st with gamma := v }

/-- src/contract/src/miller_loop.rs, delta_miller_loop: same shape over the
proof point c and the delta account. -/
def delta_miller_loop (ops : FieldOps F F2 Fq) (i j : Nat)
    (input : List Nat) (st : Slots F) : Except PanicKind (Slots F) :=
  match ops.decode_g1_affine input with
  | none => Except.error PanicKind.decode_fail
  | some p =>
    let acc := get_account_data ops st.delta j
    match
      (if j = 89 then Except.ok (final_delta_miller_loop ops p acc j)
       else sub_delta_miller_loop ops p acc i j) with
    | Except.error e => Except.error e
    | Except.ok v => Except.ok { st with delta := v }

/-- src/contract/src/final_exponentiation.rs, prepare_final_data: decode the
externally supplied partial pairing value from the payload (array_ref and
read, both unwrapped) and multiply in the gamma and delta accumulators, then
write the product to the final account. -/
def prepare_final_data (ops : FieldOps F F2 Fq) (input : List Nat)
    (st : Slots F) : Except PanicKind (Slots F) :=
  match ops.decode_fp12 input with
  | none => Except.error PanicKind.decode_fail
  | some qap =>
    let qap1 := ops.mul qap (get_account_data ops st.gamma 1)
    let qap2 := ops.mul qap1 (get_account_data ops st.delta 1)
    Except.ok { st with final_slot := qap2 }

/-- src/contract/src/final_exponentiation.rs, easy_part1: replace the final
slot by conjugate(f) * inverse(f); the inverse is unwrapped, so the
non-invertible element panics and nothing is written. -/
def easy_part1 (ops : FieldOps F F2 Fq) (st : Slots F) :
    Except PanicKind (Slots F) :=
  let f := get_account_data ops st.final_slot 1
  let f1 := ops.conjugate f
  match ops.inverse f with
  | none => Except.error PanicKind.non_invertible
  | some f2 => Except.ok { st with final_slot := ops.mul f1 f2 }

/-- src/contract/src/final_exponentiation.rs, easy_part2: replace the final
slot by frobenius(f, 2) * f. -/
def easy_part2 (ops : FieldOps F F2 Fq) (st : Slots F) :
    Except PanicKind (Slots F) :=
  let r := get_account_data ops st.final_slot 1
  let f2 := r
  let r1 := ops.frobenius_map r 2
  Except.ok { st with final_slot := ops.mul r1 f2 }

/-- src/contract/src/final_exponentiation.rs, exp_by_neg_x: one step of the
shared 63-step square-and-multiply sub-computation.  Reads digit NAF[j]
(panics out of bounds), squares the running result when j > 0, and
multiplies by the base (digit positive) or its conjugate (digit negative)
when the digit is nonzero. -/
def exp_by_neg_x (ops : FieldOps F F2 Fq) (fe self_inverse res : F)
    (j : Nat) : Except PanicKind F :=
  match NAF.get? j with
  | none => Except.error PanicKind.index_oob
  | some value =>
    let res1 := if j > 0 then ops.square res else res
    Except.ok
      (if value ≠ 0 then
        (if value > 0 then ops.mul res1 fe else ops.mul res1 self_inverse)
       else res1)

/-- src/contract/src/final_exponentiation.rs, cal_y0: conjugate the base and
run one exp_by_neg_x step. -/
def cal_y0 (ops : FieldOps F F2 Fq) (f res : F) (j : Nat) :
    Except PanicKind F :=
  let inv := ops.conjugate f
  exp_by_neg_x ops f inv res j

/-- src/contract/src/final_exponentiation.rs, cal_y4 (identical body to
cal_y0). -/
def cal_y4 (ops : FieldOps F F2 Fq) (f res : F) (j : Nat) :
    Except PanicKind F :=
  let inv := ops.conjugate f
  exp_by_neg_x ops f inv res j

/-- src/contract/src/final_exponentiation.rs, cal_y6 (identical body to
cal_y0). -/
def cal_y6 (ops : FieldOps F F2 Fq) (f res : F) (j : Nat) :
    Except PanicKind F :=
  let inv := ops.conjugate f
  exp_by_neg_x ops f inv res j

/-- src/contract/src/final_exponentiation.rs, hard_part_y0: one sub-step of
y0 = final ^ (-x); the y0 slot seeds as the identity at j = 0 through
get_account_data, and the step at j = 62 conjugates once more. -/
def hard_part_y0 (ops : FieldOps F F2 Fq) (j : Nat) (st : Slots F) :
    Except PanicKind (Slots F) :=
  let r := get_account_data ops st.final_slot 1
  let y0 := get_account_data ops st.y0 j
  match cal_y0 ops r y0 j with
  | Except.error e => Except.error e
  | Except.ok v =>
    let v1 := if j = 62 then ops.conjugate v else v
    Except.ok { st with y0 := v1 }

/-- src/contract/src/final_exponentiation.rs, hard_part_y1: y1 is the
cyclotomic square of y0. -/
def hard_part_y1 (ops : FieldOps F F2 Fq) (st : Slots F) :
    Except PanicKind (Slots F) :=
  let y0 := get_account_data ops st.y0 1
  Except.ok { st with y1 := ops.cyclotomic_square y0 }

/-- src/contract/src/final_exponentiation.rs, cal_y3: two cyclotomic
squarings of the base and one multiply. -/
def cal_y3 (ops : FieldOps F F2 Fq) (f : F) : F :=
  let y1 := ops.cyclotomic_square f
  let y2 := ops.cyclotomic_square y1
  ops.mul y2 y1

/-- src/contract/src/final_exponentiation.rs, hard_part_y3. -/
def hard_part_y3 (ops : FieldOps F F2 Fq) (st : Slots F) :
    Except PanicKind (Slots F) :=
  let y0 := get_account_data ops st.y0 1
  Except.ok { st with y3 := cal_y3 ops y0 }

/-- src/contract/src/final_exponentiation.rs, hard_part_y4: one sub-step of
y4 = y3 ^ (-x), same shape as hard_part_y0. -/
def hard_part_y4 (ops : FieldOps F F2 Fq) (j : Nat) (st : Slots F) :
    Except PanicKind (Slots F) :=
  let y3 := get_account_data ops st.y3 1
  let y4 := get_account_data ops st.y4 j
  match cal_y4 ops y3 y4 j with
  | Except.error e => Except.error e
  | Except.ok v =>
    let v1 := if j = 62 then ops.conjugate v else v
    Except.ok { st with y4 := v1 }

/-- src/contract/src/final_exponentiation.rs, hard_part_y6: one sub-step of
y6 = cyclotomic_square(y4) ^ (-x), same shape as hard_part_y0 with the base
recomputed as the cyclotomic square of the y4 slot. -/
def hard_part_y6 (ops : FieldOps F F2 Fq) (j : Nat) (st : Slots F) :
    Except PanicKind (Slots F) :=
  let y4 := get_account_data ops st.y4 1
  let y5 := ops.cyclotomic_square y4
  let y6 := get_account_data ops st.y6 j
  match cal_y6 ops y5 y6 j with
  | Except.error e => Except.error e
  | Except.ok v =>
    let v1 := if j = 62 then ops.conjugate v else v
    Except.ok { st with y6 := v1 }

/-- src/contract/src/final_exponentiation.rs, hard_part_y8:
y8 = (conjugate(y6) * y4) * conjugate(y3). -/
def hard_part_y8 (ops : FieldOps F F2 Fq) (st : Slots F) :
    Except PanicKind (Slots F) :=
  let y3 := get_account_data ops st.y3 1
  let y4 := get_account_data ops st.y4 1
  let y6 := get_account_data ops st.y6 1
  let y3c := ops.conjugate y3
  let y6c := ops.conjugate y6
  let y7 := ops.mul y6c y4
  Except.ok { st with y8 := ops.mul y7 y3c }

/-- src/contract/src/final_exponentiation.rs, hard_part_y9: y9 = y8 * y1. -/
def hard_part_y9 (ops : FieldOps F F2 Fq) (st : Slots F) :
    Except PanicKind (Slots F) :=
  let y1 := get_account_data ops st.y1 1
  let y8 := get_account_data ops st.y8 1
  Except.ok { st with y9 := ops.mul y8 y1 }

/-- src/contract/src/final_exponentiation.rs, hard_part_y11:
y11 = (y8 * y4) * final. -/
def hard_part_y11 (ops : FieldOps F F2 Fq) (st : Slots F) :
    Except PanicKind (Slots F) :=
  let y4 := get_account_data ops st.y4 1
  let y8 := get_account_data ops st.y8 1
  let r := get_account_data ops st.final_slot 1
  Except.ok { st with y11 := ops.mul (ops.mul y8 y4) r }

/-- src/contract/src/final_exponentiation.rs, hard_part_y13:
y13 = frobenius(y9, 1) * y11. -/
def hard_part_y13 (ops : FieldOps F F2 Fq) (st : Slots F) :
    Except PanicKind (Slots F) :=
  let y9 := get_account_data ops st.y9 1
  let y11 := get_account_data ops st.y11 1
  let y12 := ops.frobenius_map y9 1
  Except.ok { st with y13 := ops.mul y12 y11 }

/-- src/contract/src/final_exponentiation.rs, hard_part_y14:
y14 = frobenius(y8, 2) * y13. -/
def hard_part_y14 (ops : FieldOps F F2 Fq) (st : Slots F) :
    Except PanicKind (Slots F) :=
  let y8 := get_account_data ops st.y8 1
  let y13 := get_account_data ops st.y13 1
  let y8f := ops.frobenius_map y8 2
  Except.ok { st with y14 := ops.mul y8f y13 }

/-- src/contract/src/final_exponentiation.rs, hard_part_y15:
y15 = frobenius(conjugate(final) * y9, 3). -/
def hard_part_y15 (ops : FieldOps F F2 Fq) (st : Slots F) :
    Except PanicKind (Slots F) :=
  let r := get_account_data ops st.final_slot 1
  let y9 := get_account_data ops st.y9 1
  let rc := ops.conjugate r
  let y15 := ops.mul rc y9
  Except.ok { st with y15 := ops.frobenius_map y15 3 }

/-- src/contract/src/final_exponentiation.rs, hard_part_y16: read y14 and
y15, form y16 = y15 * y14, and assert equality with the fixed expected
pairing value of the verifying key; the failed assert is the verdict
mismatch and no account is written on either outcome. -/
def hard_part_y16 (ops : FieldOps F F2 Fq) (st : Slots F) :
    Except PanicKind (Slots F) :=
  let y14 := get_account_data ops st.y14 1
  let y15 := get_account_data ops st.y15 1
  let y16 := ops.mul y15 y14
  if ops.beq y16 ops.get_alpha_g1_beta_g2 then Except.ok st
  else Except.error PanicKind.verdict_assert

/-- src/contract/src/final_exponentiation.rs, final_exponentiation: dispatch
the final-exponentiation sub-opcode 2..16; every other value falls through
the empty match arm and returns Ok with no account touched. -/
def final_exponentiation (ops : FieldOps F F2 Fq) (t j : Nat)
    (input : List Nat) (st : Slots F) : Except PanicKind (Slots F) :=
  if t = 2 then prepare_final_data ops input st
  else if t = 3 then easy_part1 ops st
  else if t = 4 then easy_part2 ops st
  else if t = 5 then hard_part_y0 ops j st
  else if t = 6 then hard_part_y1 ops st
  else if t = 7 then hard_part_y3 ops st
  else if t = 8 then hard_part_y4 ops j st
  else if t = 9 then hard_part_y6 ops j st
  else if t = 10 then hard_part_y8 ops st
  else if t = 11 then hard_part_y9 ops st
  else if t = 12 then hard_part_y11 ops st
  else if t = 13 then hard_part_y13 ops st
  else if t = 14 then hard_part_y14 ops st
  else if t = 15 then hard_part_y15 ops st
  else if t = 16 then hard_part_y16 ops st
  else Except.ok st

/-- src/contract/src/lib.rs, process_instruction: unwrap the instruction
data (panic on fewer than three bytes), then dispatch the first byte t.
Bytes 0 and 1 run the two Miller loops with (i, j); every other first byte
calls final_exponentiation passing i, the SECOND byte, as its sub-opcode --
exactly as the source does, even though the client driver places the
final-exponentiation opcode in the first byte. -/
def process_instruction (ops : FieldOps F F2 Fq)
    (instruction_data : List Nat) (st : Slots F) :
    Except PanicKind (Slots F) :=
  match unpack_instruction_data instruction_data with
  | Except.error _ => Except.error PanicKind.instr_data
  | Except.ok (t, i, j, input) =>
    if t = 0 then gamma_miller_loop ops i j input st
    else if t = 1 then delta_miller_loop ops i j input st
    else final_exponentiation ops i j input st

/-- Free syntactic interpretation of the target-group operations: every
operation is a constructor, so distinct operation sequences give distinct
values and equalities are decidable.  Used to evaluate the step engines on
concrete inputs. -/
inductive FExpr : Type where
  | atom : Nat → FExpr
  | zero : FExpr
  | one : FExpr
  | mul : FExpr → FExpr → FExpr
  | sq : FExpr → FExpr
  | conj : FExpr → FExpr
  | inv : FExpr → FExpr
  | frob : FExpr → Nat → FExpr
  | cyc : FExpr → FExpr
  | ell : FExpr → Nat × Nat → FExpr
deriving DecidableEq, Repr

/-- Concrete FieldOps instance over the free syntax tree.  Line-coefficient
rows are tagged pairs so gamma row j and delta row j stay distinct; the
point decoder maps the payload byte 0 to the point at infinity, byte 1 to an
affine point, and anything else to a decode failure; only FExpr.zero fails
to invert. -/
def freeOps : FieldOps FExpr (Nat × Nat) Unit where
  one := FExpr.one
  mul := FExpr.mul
  square := FExpr.sq
  conjugate := FExpr.conj
  inverse := fun f => if f = FExpr.zero then none else some (FExpr.inv f)
  frobenius_map := FExpr.frob
  cyclotomic_square := FExpr.cyc
  mul_by_034 := fun f c0 _ _ => FExpr.ell f c0
  mul_assign_by_fp := fun c _ => c
  beq := fun a b => a == b
  decode_g1_projective := fun input =>
    match input with
    | [0] => some ⟨(), (), true⟩
    | [1] => some ⟨(), (), false⟩
    | _ => none
  decode_g1_affine := fun input =>
    match input with
    | [0] => some ⟨(), (), true⟩
    | [1] => some ⟨(), (), false⟩
    | _ => none
  decode_fp12 := fun input =>
    match input with
    | [] => none
    | b :: _ => some (FExpr.atom b)
  get_gamma_qef := fun j k => (j, k)
  get_delta_qef := fun j k => (j + 1000, k)
  get_alpha_g1_beta_g2 := FExpr.atom 99

/-- Concrete slot assignment with pairwise distinct non-identity values. -/
def s0 : Slots FExpr :=
  { gamma := FExpr.atom 0, delta := FExpr.atom 1, final_slot := FExpr.atom 2,
    y0 := FExpr.atom 3, y1 := FExpr.atom 4, y3 := FExpr.atom 5,
    y4 := FExpr.atom 6, y6 := FExpr.atom 7, y8 := FExpr.atom 8,
    y9 := FExpr.atom 9, y11 := FExpr.atom 10, y13 := FExpr.atom 11,
    y14 := FExpr.atom 12, y15 := FExpr.atom 13 }

/-- Concrete non-infinity point over the trivial base field. -/
def pAffine : G1Aff Unit := ⟨(), (), false⟩

/-- Claim C2 transcribed as written, for the refinement comparison: square
unless the loop index is the first one processed (64), fold in line row j,
and fold in line row j + 1 exactly when the Ate-loop-count digit AT
loop_index is 1 or -1. -/
def claimed_sub_gamma (ops : FieldOps F F2 Fq) (p : G1Aff Fq) (f : F)
    (i j : Nat) : F :=
  let f1 := if i ≠ 64 then ops.square f else f
  let f2 := gamma_onchain_ell ops f1 j p
  if ATE_LOOP_COUNT.getD i 0 = 1 ∨ ATE_LOOP_COUNT.getD i 0 = -1 then
    gamma_onchain_ell ops f2 (j + 1) p
  else f2

/-- Amended form of claim C2 for the gamma instance: as claimed_sub_gamma
but with the digit taken at loop_index - 1, as the source does. -/
def amended_sub_gamma (ops : FieldOps F F2 Fq) (p : G1Aff Fq) (f : F)
    (i j : Nat) : F :=
  let f1 := if i ≠ 64 then ops.square f else f
  let f2 := gamma_onchain_ell ops f1 j p
  if ATE_LOOP_COUNT.getD (i - 1) 0 = 1 ∨ ATE_LOOP_COUNT.getD (i - 1) 0 = -1
  then gamma_onchain_ell ops f2 (j + 1) p
  else f2

/-- Amended form of claim C2 for the delta instance. -/
def amended_sub_delta (ops : FieldOps F F2 Fq) (p : G1Aff Fq) (f : F)
    (i j : Nat) : F :=
  let f1 := if i ≠ 64 then ops.square f else f
  let f2 := delta_onchain_ell ops f1 j p
  if ATE_LOOP_COUNT.getD (i - 1) 0 = 1 ∨ ATE_LOOP_COUNT.getD (i - 1) 0 = -1
  then delta_onchain_ell ops f2 (j + 1) p
  else f2

/-- Claim C3 transcribed as written: the per-step transformation of the
shared 63-step sub-computation.  The running result is seeded as the
identity at step 0, squared when j > 0, multiplied by the base or its
conjugate according to the sign of NAF[j] when that digit is nonzero, and
conjugated once more exactly when j is 62. -/
def claimed_exp_step (ops : FieldOps F F2 Fq) (base prev : F) (j : Nat) :
    F :=
  let res0 := if j = 0 then ops.one else prev
  let res1 := if j > 0 then ops.square res0 else res0
  let d := NAF.getD j 0
  let res2 :=
    if d ≠ 0 then
      (if d > 0 then ops.mul res1 base else ops.mul res1 (ops.conjugate base))
    else res1
  if j = 62 then ops.conjugate res2 else res2

/-- Modelled from the spec: the base-field modulus of the curve (the bn254
prime q), the range bound of each 32-byte limb of the 384-byte
PairingTargetElement encoding. -/
def fq_modulus : Nat :=
  21888242871839275222246405745257275088696311157297823662689037894645226208583

/-- Little-endian byte rendering of a natural number on k bytes. -/
def nat_to_le_bytes : Nat → Nat → List Nat
  | _, 0 => []
  | n, k + 1 => (n % 256) :: nat_to_le_bytes (n / 256) k

/-- Little-endian byte parsing. -/
def nat_from_le_bytes : List Nat → Nat
  | [] => 0
  | b :: bs => b + 256 * nat_from_le_bytes bs

/-- Modelled from the spec: reading one canonical base-field element (the
arkworks FromBytes instance called through Fp12 read in
src/contract/src/utils.rs; the library is outside this repository).  Take 32
little-endian bytes and reject a value at or above the modulus. -/
def read_limb (bs : List Nat) : Option (Nat × List Nat) :=
  if 32 ≤ bs.length then
    let v := nat_from_le_bytes (bs.take 32)
    if v < fq_modulus then some (v, bs.drop 32) else none
  else none

/-- Read k successive base-field limbs. -/
def read_limbs : Nat → List Nat → Option (List Nat × List Nat)
  | 0, bs => some ([], bs)
  | k + 1, bs =>
    match read_limb bs with
    | none => none
    | some (v, rest) =>
      match read_limbs k rest with
      | none => none
      | some (vs, rest1) => some (v :: vs, rest1)

/-- Modelled from the spec: decoding a PairingTargetElement from its
384-byte layout as the 12 base-field limbs of the degree-12 tower, read in
sequence; any out-of-range limb fails the whole decode. -/
def decode_fp12_bytes (bs : List Nat) : Option (List Nat) :=
  match read_limbs 12 bs with
  | none => none
  | some (vs, _) => some vs

/-- Modelled from the spec: encoding a PairingTargetElement as the
concatenation of the 32-byte little-endian renderings of its 12 limbs. -/
def encode_fp12_bytes (v : List Nat) : List Nat :=
  (v.map (fun x => nat_to_le_bytes x 32)).flatten

/-- A valid PairingTargetElement value: 12 limbs, each below the modulus. -/
def ValidFp12 (v : List Nat) : Prop :=
  v.length = 12 ∧ ∀ x ∈ v, x < fq_modulus

/-- The i-th 32-byte limb of a byte string, as a natural number. -/
def limb_at (bs : List Nat) (i : Nat) : Nat :=
  nat_from_le_bytes ((bs.drop (32 * i)).take 32)

theorem length_nat_to_le_bytes (n k : Nat) :
    (nat_to_le_bytes n k).length = k := by
  induction k generalizing n with
  | zero => rfl
  | succ k ih => simp [nat_to_le_bytes, ih]

theorem nat_from_to_le_bytes (k n : Nat) (h : n < 256 ^ k) :
    nat_from_le_bytes (nat_to_le_bytes n k) = n := by
  induction k generalizing n with
  | zero =>
    simp [Nat.pow_zero] at h
    simp [nat_to_le_bytes, nat_from_le_bytes, h]
  | succ k ih =>
    have hdiv : n / 256 < 256 ^ k := by
      rw [Nat.div_lt_iff_lt_mul (by norm_num : 0 < 256)]
      calc n < 256 ^ (k + 1) := h
        _ = 256 ^ k * 256 := by rw [Nat.pow_succ]
    simp only [nat_to_le_bytes, nat_from_le_bytes, ih (n / 256) hdiv]
    exact Nat.mod_add_div n 256

theorem fq_modulus_lt : fq_modulus < 256 ^ 32 := by decide

theorem read_limbs_encode (v : List Nat) (hv : ∀ x ∈ v, x < fq_modulus)
    (rest : List Nat) :
    read_limbs v.length
      ((v.map (fun x => nat_to_le_bytes x 32)).flatten ++ rest) =
      some (v, rest) := by
  induction v with
  | nil => simp [read_limbs]
  | cons a v ih =>
    have ha : a < fq_modulus := hv a (List.mem_cons_self a v)
    have ha2 : a < 256 ^ 32 := lt_trans ha fq_modulus_lt
    have hlen : (nat_to_le_bytes a 32).length = 32 := length_nat_to_le_bytes a 32
    have hjoin :
        ((a :: v).map (fun x => nat_to_le_bytes x 32)).flatten ++ rest =
          nat_to_le_bytes a 32 ++
            (((v.map (fun x => nat_to_le_bytes x 32)).flatten) ++ rest) := by
      simp [List.flatten, List.append_assoc]
    rw [List.length_cons, hjoin]
    have htake :
        (nat_to_le_bytes a 32 ++
          (((v.map (fun x => nat_to_le_bytes x 32)).flatten) ++ rest)).take 32 =
          nat_to_le_bytes a 32 := by
      rw [← hlen]
      exact List.take_left _ _
    have hdrop :
        (nat_to_le_bytes a 32 ++
          (((v.map (fun x => nat_to_le_bytes x 32)).flatten) ++ rest)).drop 32 =
          ((v.map (fun x => nat_to_le_bytes x 32)).flatten) ++ rest := by
      rw [← hlen]
      exact List.drop_left _ _
    have hlenge :
        32 ≤ (nat_to_le_bytes a 32 ++
          (((v.map (fun x => nat_to_le_bytes x 32)).flatten) ++ rest)).length := by
      rw [List.length_append, hlen]
      exact Nat.le_add_right 32 _
    have hval : nat_from_le_bytes
        ((nat_to_le_bytes a 32 ++
          (((v.map (fun x => nat_to_le_bytes x 32)).flatten) ++ rest)).take 32) =
        a := by
      rw [htake]
      exact nat_from_to_le_bytes 32 a ha2
    simp only [read_limbs, read_limb, if_pos hlenge, hval, if_pos ha, hdrop]
    rw [ih (fun x hx => hv x (List.mem_cons_of_mem a hx))]

theorem read_limbs_limbs_lt (k : Nat) :
    ∀ (bs : List Nat) vs rest, read_limbs k bs = some (vs, rest) →
      ∀ i, i < k → limb_at bs i < fq_modulus := by
  induction k with
  | zero => intro bs vs rest _ i hi; omega
  | succ k ih =>
    intro bs vs rest h i hi
    simp only [read_limbs] at h
    cases hrl : read_limb bs with
    | none => rw [hrl] at h; exact absurd h (by simp)
    | some pr =>
      rw [hrl] at h
      obtain ⟨v0, rest0⟩ := pr
      simp only at h
      cases hrls : read_limbs k rest0 with
      | none => rw [hrls] at h; exact absurd h (by simp)
      | some pr1 =>
        rw [hrls] at h
        obtain ⟨vs1, rest1⟩ := pr1
        simp only [Option.some.injEq, Prod.mk.injEq] at h
        simp only [read_limb] at hrl
        by_cases hlen : 32 ≤ bs.length
        · rw [if_pos hlen] at hrl
          by_cases hv : nat_from_le_bytes (bs.take 32) < fq_modulus
          · rw [if_pos hv] at hrl
            simp only [Option.some.injEq, Prod.mk.injEq] at hrl
            cases i with
            | zero =>
              simpa [limb_at] using hv
            | succ i =>
              have hrest0 : rest0 = bs.drop 32 := hrl.2.symm
              have := ih rest0 vs1 rest1 hrls i (by omega)
              have hshift : limb_at bs (i + 1) = limb_at rest0 i := by
                rw [hrest0]
                unfold limb_at
                rw [List.drop_drop]
                have h32 : 32 + 32 * i = 32 * (i + 1) := by ring
                rw [h32]
              rw [hshift]
              exact this
          · rw [if_neg hv] at hrl; exact absurd hrl (by simp)
        · rw [if_neg hlen] at hrl; exact absurd hrl (by simp)

instance {ε α : Type} [DecidableEq ε] [DecidableEq α] :
    DecidableEq (Except ε α) := fun a b =>
  match a, b with
  | Except.error e, Except.error e1 =>
    if h : e = e1 then isTrue (h ▸ rfl)
    else isFalse (fun hc => h (Except.error.inj hc))
  | Except.error _, Except.ok _ => isFalse (fun hc => Except.noConfusion hc)
  | Except.ok _, Except.error _ => isFalse (fun hc => Except.noConfusion hc)
  | Except.ok v, Except.ok w =>
    if h : v = w then isTrue (h ▸ rfl)
    else isFalse (fun hc => h (Except.ok.inj hc))

theorem get?_eq_some_getD {l : List Int} {n : Nat} (h : n < l.length) :
    l.get? n = some (l.getD n 0) := by
  induction l generalizing n with
  | nil => simp at h
  | cons a l ih =>
    cases n with
    | zero => rfl
    | succ n => exact ih (by simpa using h)

theorem sub_gamma_eq (ops : FieldOps F F2 Fq) (p : G1Aff Fq) (f : F)
    (i j : Nat) (h1 : 1 ≤ i) (h64 : i ≤ 64) (hp : p.infinity = false) :
    sub_gamma_miller_loop ops p f i j =
      Except.ok (amended_sub_gamma ops p f i j) := by
  have hsub : usize_sub i 1 = some (i - 1) := by
    unfold usize_sub
    rw [if_pos h1]
  have hlen : ATE_LOOP_COUNT.length = 65 := rfl
  have hlt : i - 1 < ATE_LOOP_COUNT.length := by omega
  have hd : ATE_LOOP_COUNT.get? (i - 1) =
      some (ATE_LOOP_COUNT.getD (i - 1) 0) := get?_eq_some_getD hlt
  unfold sub_gamma_miller_loop amended_sub_gamma
  simp only [hp, Bool.false_eq_true, if_false, hsub, hd]
  rfl

theorem sub_delta_eq (ops : FieldOps F F2 Fq) (p : G1Aff Fq) (f : F)
    (i j : Nat) (h1 : 1 ≤ i) (h64 : i ≤ 64) (hp : p.infinity = false) :
    sub_delta_miller_loop ops p f i j =
      Except.ok (amended_sub_delta ops p f i j) := by
  have hsub : usize_sub i 1 = some (i - 1) := by
    unfold usize_sub
    rw [if_pos h1]
  have hlen : ATE_LOOP_COUNT.length = 65 := rfl
  have hlt : i - 1 < ATE_LOOP_COUNT.length := by omega
  have hd : ATE_LOOP_COUNT.get? (i - 1) =
      some (ATE_LOOP_COUNT.getD (i - 1) 0) := get?_eq_some_getD hlt
  unfold sub_delta_miller_loop amended_sub_delta
  simp only [hp, Bool.false_eq_true, if_false, hsub, hd]
  rfl

/-- Claim C1: the opcode-16 arm of the final-exponentiation dispatcher forms
y16 = y15 * y14 from the y14 and y15 slots and succeeds exactly when y16
equals the fixed expected pairing value baked in from the verifying key; a
failed comparison surfaces as the verdict-assert outcome, which is distinct
from the decode-failure, non-invertible, index and instruction-data panic
kinds (an unrecognized opcode produces no error at all in this code, so
there is no unknown-opcode error kind to collide with), and no slot is
written on either outcome. -/
theorem final_step_verdict (ops : FieldOps F F2 Fq) (j : Nat)
    (input : List Nat) (st : Slots F) :
    final_exponentiation ops 16 j input st =
      (if ops.beq (ops.mul st.y15 st.y14) ops.get_alpha_g1_beta_g2
       then Except.ok st
       else Except.error PanicKind.verdict_assert) ∧
    PanicKind.verdict_assert ≠ PanicKind.decode_fail ∧
    PanicKind.verdict_assert ≠ PanicKind.non_invertible ∧
    PanicKind.verdict_assert ≠ PanicKind.index_oob ∧
    PanicKind.verdict_assert ≠ PanicKind.instr_data := by
  refine ⟨rfl, by decide, by decide, by decide, by decide⟩

/-- Claim C6: the opcode-3 arm of the final-exponentiation dispatcher
replaces an invertible final slot f by conjugate(f) * inverse(f), and on the
non-invertible degenerate element it fails with the non-invertible panic
kind, writing nothing. -/
theorem easy_part1_behavior (ops : FieldOps F F2 Fq) (j : Nat)
    (input : List Nat) (st : Slots F) :
    final_exponentiation ops 3 j input st =
      (match ops.inverse st.final_slot with
       | none => Except.error PanicKind.non_invertible
       | some f2 =>
         Except.ok
           { st with final_slot := ops.mul (ops.conjugate st.final_slot) f2 }) :=
  rfl

/-- Claim C8: a slot read with step index 0 returns the multiplicative
identity whatever the slot holds, so the first step of each Miller loop and
of each 63-step sub-computation gives the same outcome for any prior slot
contents. -/
theorem step_zero_independence (ops : FieldOps F F2 Fq) (v v1 : F)
    (i : Nat) (input : List Nat) (st : Slots F) :
    get_account_data ops v 0 = ops.one ∧
    gamma_miller_loop ops i 0 input { st with gamma := v } =
      gamma_miller_loop ops i 0 input { st with gamma := v1 } ∧
    delta_miller_loop ops i 0 input { st with delta := v } =
      delta_miller_loop ops i 0 input { st with delta := v1 } ∧
    hard_part_y0 ops 0 { st with y0 := v } =
      hard_part_y0 ops 0 { st with y0 := v1 } ∧
    hard_part_y4 ops 0 { st with y4 := v } =
      hard_part_y4 ops 0 { st with y4 := v1 } ∧
    hard_part_y6 ops 0 { st with y6 := v } =
      hard_part_y6 ops 0 { st with y6 := v1 } :=
  ⟨rfl, rfl, rfl, rfl, rfl, rfl⟩

/-- Claim C9: unpack_instruction_data rejects inputs shorter than three
bytes with INVALID_INSTRUCTION_DATA and otherwise returns the first three
bytes as (opcode, loop index, coeff index) together with the remaining
bytes unmodified. -/
theorem unpack_behavior (input : List Nat) :
    (input.length < 3 →
      unpack_instruction_data input =
        Except.error ProgramError.invalid_instruction_data) ∧
    (3 ≤ input.length →
      unpack_instruction_data input =
        Except.ok (input.getD 0 0, input.getD 1 0, input.getD 2 0,
          input.drop 3)) := by
  match input with
  | [] => exact ⟨fun _ => rfl, fun h => by simp at h⟩
  | [a] => exact ⟨fun _ => rfl, fun h => by simp at h⟩
  | [a, b] => exact ⟨fun _ => rfl, fun h => by simp at h⟩
  | a :: b :: c :: rest =>
    refine ⟨fun h => ?_, fun _ => rfl⟩
    simp only [List.length_cons] at h
    omega

/-- Witness for unpack_behavior at two concrete inputs, one per branch. -/
theorem unpack_behavior_witness :
    unpack_instruction_data [9] =
      Except.error ProgramError.invalid_instruction_data ∧
    unpack_instruction_data [1, 2, 3, 7] = Except.ok (1, 2, 3, [7]) := by
  refine ⟨(unpack_behavior [9]).1 (by decide), ?_⟩
  have h := (unpack_behavior [1, 2, 3, 7]).2 (by decide)
  simpa using h

/-- Witness for final_step_verdict at a concrete state (the slot product
differs from the expected value, so the step reports the verdict panic). -/
theorem final_step_verdict_witness :
    final_exponentiation freeOps 16 0 [] s0 =
      (if freeOps.beq (freeOps.mul s0.y15 s0.y14)
          freeOps.get_alpha_g1_beta_g2
       then Except.ok s0
       else Except.error PanicKind.verdict_assert) ∧
    PanicKind.verdict_assert ≠ PanicKind.decode_fail ∧
    PanicKind.verdict_assert ≠ PanicKind.non_invertible ∧
    PanicKind.verdict_assert ≠ PanicKind.index_oob ∧
    PanicKind.verdict_assert ≠ PanicKind.instr_data :=
  final_step_verdict freeOps 0 [] s0

/-- Witness for easy_part1_behavior at a concrete invertible state. -/
theorem easy_part1_behavior_witness :
    final_exponentiation freeOps 3 0 [] s0 =
      (match freeOps.inverse s0.final_slot with
       | none => Except.error PanicKind.non_invertible
       | some f2 =>
         Except.ok
           { s0 with
             final_slot := freeOps.mul (freeOps.conjugate s0.final_slot) f2 }) :=
  easy_part1_behavior freeOps 0 [] s0

/-- Witness for step_zero_independence at two distinct stored values. -/
theorem step_zero_independence_witness :
    get_account_data freeOps (FExpr.atom 20) 0 = freeOps.one ∧
    gamma_miller_loop freeOps 64 0 [1] { s0 with gamma := FExpr.atom 20 } =
      gamma_miller_loop freeOps 64 0 [1] { s0 with gamma := FExpr.atom 21 } ∧
    delta_miller_loop freeOps 64 0 [1] { s0 with delta := FExpr.atom 20 } =
      delta_miller_loop freeOps 64 0 [1] { s0 with delta := FExpr.atom 21 } ∧
    hard_part_y0 freeOps 0 { s0 with y0 := FExpr.atom 20 } =
      hard_part_y0 freeOps 0 { s0 with y0 := FExpr.atom 21 } ∧
    hard_part_y4 freeOps 0 { s0 with y4 := FExpr.atom 20 } =
      hard_part_y4 freeOps 0 { s0 with y4 := FExpr.atom 21 } ∧
    hard_part_y6 freeOps 0 { s0 with y6 := FExpr.atom 20 } =
      hard_part_y6 freeOps 0 { s0 with y6 := FExpr.atom 21 } :=
  step_zero_independence freeOps (FExpr.atom 20) (FExpr.atom 21) 64 [1] s0

/-- Claim C2 counterexample: at loop index 3 (digit at index 3 is 1 but the
digit at index 2, the one the code reads, is 0) the sub step differs from
the claimed transformation that takes the digit at loop_index itself. -/
theorem miller_digit_index_cex :
    sub_gamma_miller_loop freeOps pAffine (FExpr.atom 7) 3 5 ≠
      Except.ok (claimed_sub_gamma freeOps pAffine (FExpr.atom 7) 3 5) := by
  decide

/-- Claim C2 amended: for every Miller-loop sub-step with loop index in
1..64 on a non-infinity point, the accumulator is squared unless the loop
index is the very first one processed (64), the line evaluation at
coeff_index is multiplied in, and the extra line evaluation at
coeff_index + 1 is multiplied in exactly when the Ate-loop-count digit at
loop_index - 1 is 1 or -1; identically for the gamma and delta engines. -/
theorem miller_sub_step_amended (ops : FieldOps F F2 Fq) (p : G1Aff Fq)
    (f : F) (i j : Nat) (h1 : 1 ≤ i) (h64 : i ≤ 64)
    (hp : p.infinity = false) :
    sub_gamma_miller_loop ops p f i j =
      Except.ok (amended_sub_gamma ops p f i j) ∧
    sub_delta_miller_loop ops p f i j =
      Except.ok (amended_sub_delta ops p f i j) :=
  ⟨sub_gamma_eq ops p f i j h1 h64 hp, sub_delta_eq ops p f i j h1 h64 hp⟩

/-- Witness for miller_sub_step_amended at loop index 3, coeff index 5. -/
theorem miller_sub_step_amended_witness :
    sub_gamma_miller_loop freeOps pAffine (FExpr.atom 7) 3 5 =
      Except.ok (amended_sub_gamma freeOps pAffine (FExpr.atom 7) 3 5) ∧
    sub_delta_miller_loop freeOps pAffine (FExpr.atom 7) 3 5 =
      Except.ok (amended_sub_delta freeOps pAffine (FExpr.atom 7) 3 5) :=
  miller_sub_step_amended freeOps pAffine (FExpr.atom 7) 3 5 (by decide)
    (by decide) rfl

/-- Claim C3: every step j in 0..63 of the shared sub-computation seeds the
running result as the identity at step 0, squares it when j > 0, multiplies
by the base element or its conjugate according to the sign of the nonzero
digit NAF[j], and conjugates once more exactly when j is 62 -- and the
y0, y4 and y6 uses all apply this same transformation to their own base and
slot. -/
theorem shared_exp_step_uniform (ops : FieldOps F F2 Fq) (st : Slots F)
    (j : Nat) (hj : j < 63) :
    hard_part_y0 ops j st =
      Except.ok { st with y0 := claimed_exp_step ops st.final_slot st.y0 j } ∧
    hard_part_y4 ops j st =
      Except.ok { st with y4 := claimed_exp_step ops st.y3 st.y4 j } ∧
    hard_part_y6 ops j st =
      Except.ok
        { st with
          y6 := claimed_exp_step ops (ops.cyclotomic_square st.y4) st.y6 j } := by
  have hlen : NAF.length = 63 := rfl
  have hlt : j < NAF.length := by omega
  have hd : NAF.get? j = some (NAF.getD j 0) := get?_eq_some_getD hlt
  refine ⟨?_, ?_, ?_⟩
  · unfold hard_part_y0 cal_y0 exp_by_neg_x claimed_exp_step get_account_data
    simp only [hd]
    rfl
  · unfold hard_part_y4 cal_y4 exp_by_neg_x claimed_exp_step get_account_data
    simp only [hd]
    rfl
  · unfold hard_part_y6 cal_y6 exp_by_neg_x claimed_exp_step get_account_data
    simp only [hd]
    rfl

/-- Witness for shared_exp_step_uniform at the conjugating step j = 62. -/
theorem shared_exp_step_uniform_witness :
    hard_part_y0 freeOps 62 s0 =
      Except.ok
        { s0 with y0 := claimed_exp_step freeOps s0.final_slot s0.y0 62 } ∧
    hard_part_y4 freeOps 62 s0 =
      Except.ok { s0 with y4 := claimed_exp_step freeOps s0.y3 s0.y4 62 } ∧
    hard_part_y6 freeOps 62 s0 =
      Except.ok
        { s0 with
          y6 := claimed_exp_step freeOps (freeOps.cyclotomic_square s0.y4)
            s0.y6 62 } :=
  shared_exp_step_uniform freeOps s0 62 (by decide)

/-- Claim C4 counterexample: first byte 17 (an opcode outside the table)
with second byte 0 returns success with no slot write instead of an
unknown-opcode error, and first byte 17 with second byte 3 actually
executes the easy-part step and writes the final slot. -/
theorem unknown_opcode_cex :
    process_instruction freeOps [17, 0, 0] s0 = Except.ok s0 ∧
    process_instruction freeOps [17, 3, 0] s0 ≠ Except.ok s0 := by
  refine ⟨rfl, by decide⟩

/-- Claim C4 amended: for every first byte t at least 17, the dispatcher
forwards the SECOND byte i to the final-exponentiation dispatcher, so the
call silently succeeds with no slot write when i is outside 2..16 and it
never reports an unknown-opcode error; when i lands in 2..16, the
corresponding final-exponentiation step runs even though t is outside the
documented opcode table. -/
theorem unknown_opcode_amended (ops : FieldOps F F2 Fq) (t i j : Nat)
    (input : List Nat) (st : Slots F) (ht : 17 ≤ t) :
    process_instruction ops (t :: i :: j :: input) st =
      final_exponentiation ops i j input st ∧
    (i < 2 ∨ 17 ≤ i →
      process_instruction ops (t :: i :: j :: input) st = Except.ok st) := by
  have hne0 : ¬(t = 0) := by omega
  have hne1 : ¬(t = 1) := by omega
  have h1 : process_instruction ops (t :: i :: j :: input) st =
      final_exponentiation ops i j input st := by
    simp only [process_instruction, unpack_instruction_data]
    rw [if_neg hne0, if_neg hne1]
  refine ⟨h1, fun hi => ?_⟩
  rw [h1]
  unfold final_exponentiation
  rw [if_neg (show ¬(i = 2) by omega), if_neg (show ¬(i = 3) by omega),
    if_neg (show ¬(i = 4) by omega), if_neg (show ¬(i = 5) by omega),
    if_neg (show ¬(i = 6) by omega), if_neg (show ¬(i = 7) by omega),
    if_neg (show ¬(i = 8) by omega), if_neg (show ¬(i = 9) by omega),
    if_neg (show ¬(i = 10) by omega), if_neg (show ¬(i = 11) by omega),
    if_neg (show ¬(i = 12) by omega), if_neg (show ¬(i = 13) by omega),
    if_neg (show ¬(i = 14) by omega), if_neg (show ¬(i = 15) by omega),
    if_neg (show ¬(i = 16) by omega)]

/-- Witness for unknown_opcode_amended at first byte 17, second byte 0. -/
theorem unknown_opcode_amended_witness :
    process_instruction freeOps (17 :: 0 :: 0 :: []) s0 =
      final_exponentiation freeOps 0 0 [] s0 ∧
    process_instruction freeOps (17 :: 0 :: 0 :: []) s0 = Except.ok s0 := by
  have h := unknown_opcode_amended freeOps 17 0 0 [] s0 (by decide)
  exact ⟨h.1, h.2 (Or.inl (by decide))⟩

/-- Claim C5 counterexample: the step at coeff index 0 with an infinity
point overwrites the gamma slot with the identity even though the slot held
a different value, so the slot value after the step differs from its value
before. -/
theorem infinity_step_zero_cex :
    gamma_miller_loop freeOps 64 0 [0] s0 =
      Except.ok { s0 with gamma := FExpr.one } ∧
    s0.gamma ≠ FExpr.one :=
  ⟨rfl, by decide⟩

/-- Claim C5 amended: for every Miller-loop step with coeff index different
from 0 whose point input decodes to the point at infinity, the accumulator
slot is unchanged; the step at coeff index 0 instead reseeds the slot to
the identity regardless of its prior contents. -/
theorem infinity_step_amended (ops : FieldOps F F2 Fq) (i j : Nat)
    (input : List Nat) (st : Slots F) (p : G1Aff Fq) (hj : j ≠ 0) :
    (ops.decode_g1_projective input = some p → p.infinity = true →
      gamma_miller_loop ops i j input st = Except.ok st) ∧
    (ops.decode_g1_affine input = some p → p.infinity = true →
      delta_miller_loop ops i j input st = Except.ok st) := by
  constructor
  · intro hdec hp
    have hacc : get_account_data ops st.gamma j = st.gamma := by
      unfold get_account_data
      rw [if_neg hj]
    by_cases h89 : j = 89
    · subst h89
      simp only [gamma_miller_loop, hdec, hacc, final_gamma_miller_loop, hp]
      rfl
    · simp only [gamma_miller_loop, hdec, hacc, if_neg h89,
        sub_gamma_miller_loop, hp]
      rfl
  · intro hdec hp
    have hacc : get_account_data ops st.delta j = st.delta := by
      unfold get_account_data
      rw [if_neg hj]
    by_cases h89 : j = 89
    · subst h89
      simp only [delta_miller_loop, hdec, hacc, final_delta_miller_loop, hp]
      rfl
    · simp only [delta_miller_loop, hdec, hacc, if_neg h89,
        sub_delta_miller_loop, hp]
      rfl

/-- Witness for infinity_step_amended at coeff index 1 with the infinity
point payload. -/
theorem infinity_step_amended_witness :
    gamma_miller_loop freeOps 64 1 [0] s0 = Except.ok s0 ∧
    delta_miller_loop freeOps 64 1 [0] s0 = Except.ok s0 := by
  have h := infinity_step_amended freeOps 64 1 [0] s0 ⟨(), (), true⟩
    (by decide)
  exact ⟨h.1 rfl rfl, h.2 rfl rfl⟩

/-- Claim C7: decoding the 384-byte encoding of a valid
PairingTargetElement yields the element back, and a byte string of the
correct length with an out-of-range limb fails to decode (decoding is a
function, hence deterministic). -/
theorem codec_round_trip :
    (∀ v : List Nat, ValidFp12 v →
      decode_fp12_bytes (encode_fp12_bytes v) = some v) ∧
    (∀ bs : List Nat, bs.length = 384 → ∀ i, i < 12 →
      fq_modulus ≤ limb_at bs i → decode_fp12_bytes bs = none) := by
  constructor
  · intro v hv
    obtain ⟨hlen, hval⟩ := hv
    unfold decode_fp12_bytes encode_fp12_bytes
    have h := read_limbs_encode v hval []
    rw [List.append_nil] at h
    rw [hlen] at h
    rw [h]
  · intro bs hlen i hi hge
    unfold decode_fp12_bytes
    cases hr : read_limbs 12 bs with
    | none => rfl
    | some pr =>
      exfalso
      obtain ⟨vs, rest⟩ := pr
      have := read_limbs_limbs_lt 12 bs vs rest hr i hi
      omega

set_option maxRecDepth 8000 in
/-- Witness for codec_round_trip: the all-zero element round-trips, and the
all-255 byte string (first limb 2^256 - 1, out of range) fails to decode. -/
theorem codec_round_trip_witness :
    decode_fp12_bytes (encode_fp12_bytes (List.replicate 12 0)) =
      some (List.replicate 12 0) ∧
    decode_fp12_bytes (List.replicate 384 255) = none := by
  constructor
  · exact codec_round_trip.1 (List.replicate 12 0) ⟨by decide, by decide⟩
  · exact codec_round_trip.2 (List.replicate 384 255) (by decide) 0
      (by decide) (by decide)

/-- Claim C10: a sub step with loop index in 1..64 on a non-infinity point
reads ATE_LOOP_COUNT at the in-bounds index loop_index - 1 and completes
without a panic; loop index 0 panics on the table access in a sub step,
while the trailing step at coeff index 89 succeeds for every loop index. -/
theorem ate_index_bounds (ops : FieldOps F F2 Fq) (p : G1Aff Fq) (f : F)
    (i j : Nat) (input : List Nat) (st : Slots F) :
    (1 ≤ i → i ≤ 64 → p.infinity = false →
      (ATE_LOOP_COUNT.get? (i - 1)).isSome = true ∧
      (∃ r, sub_gamma_miller_loop ops p f i j = Except.ok r) ∧
      (∃ r, sub_delta_miller_loop ops p f i j = Except.ok r)) ∧
    (p.infinity = false →
      sub_gamma_miller_loop ops p f 0 j = Except.error PanicKind.index_oob ∧
      sub_delta_miller_loop ops p f 0 j = Except.error PanicKind.index_oob) ∧
    (ops.decode_g1_projective input = some p →
      ∃ st2, gamma_miller_loop ops i 89 input st = Except.ok st2) := by
  refine ⟨fun h1 h64 hp => ?_, fun hp => ?_, fun hdec => ?_⟩
  · have hlt : i - 1 < ATE_LOOP_COUNT.length := by
      have : ATE_LOOP_COUNT.length = 65 := rfl
      omega
    refine ⟨?_, ⟨_, sub_gamma_eq ops p f i j h1 h64 hp⟩,
      ⟨_, sub_delta_eq ops p f i j h1 h64 hp⟩⟩
    rw [get?_eq_some_getD hlt]
    rfl
  · have hsub : usize_sub 0 1 = none := rfl
    constructor
    · unfold sub_gamma_miller_loop
      simp only [hp, Bool.false_eq_true, if_false, hsub]
    · unfold sub_delta_miller_loop
      simp only [hp, Bool.false_eq_true, if_false, hsub]
  · refine ⟨{ st with
      gamma := final_gamma_miller_loop ops p
        (get_account_data ops st.gamma 89) 89 }, ?_⟩
    simp only [gamma_miller_loop, hdec]
    rfl

/-- Witness for ate_index_bounds at loop index 64 (and 0), coeff index 0
and the trailing coeff index 89. -/
theorem ate_index_bounds_witness :
    (ATE_LOOP_COUNT.get? 63).isSome = true ∧
    (∃ r, sub_gamma_miller_loop freeOps pAffine (FExpr.atom 1) 64 0 =
      Except.ok r) ∧
    sub_gamma_miller_loop freeOps pAffine (FExpr.atom 1) 0 0 =
      Except.error PanicKind.index_oob ∧
    (∃ st2, gamma_miller_loop freeOps 64 89 [1] s0 = Except.ok st2) := by
  have h := ate_index_bounds freeOps pAffine (FExpr.atom 1) 64 0 [1] s0
  obtain ⟨ha, hb, hc⟩ := h
  have ha1 := ha (by decide) (by decide) rfl
  have hb1 := hb rfl
  exact ⟨ha1.1, ha1.2.1, hb1.1, hc rfl⟩

end Groth16SolVerifier
